import Mathlib

/-!
Verification of `pilot/pkg/networking/core/v1alpha3/loadbalancer/loadbalancer.go`.

The Go file defines four functions over Envoy/Istio protobuf data:
`GetLocalityLbSetting`, `ApplyLocalityLBSetting`, `applyLocalityWeight`
and `applyLocalityFailover`.  We embed them as pure Lean functions:
the mutation of `loadAssignment.Endpoints` in place is modelled by
returning the updated list of endpoint groups; Go `nil` pointers are
modelled by `Option`; Go `uint32` arithmetic is modelled by `Nat`
arithmetic reduced modulo `2 ^ 32` exactly where the Go code can wrap.
-/

/-- Go `core.Locality`: an (region, zone, subZone) triple of strings. -/
structure Locality where
  region : String
  zone : String
  subZone : String
deriving DecidableEq, Repr, Inhabited

/-- Go getter `GetRegion` on a possibly-nil `*core.Locality` (empty string on nil). -/
def getRegion : Option Locality → String
  | none => ""
  | some l => l.region

/-- Go getter `GetZone` on a possibly-nil `*core.Locality`. -/
def getZone : Option Locality → String
  | none => ""
  | some l => l.zone

/-- Go getter `GetSubZone` on a possibly-nil `*core.Locality`. -/
def getSubZone : Option Locality → String
  | none => ""
  | some l => l.subZone

/-- Modelled from the spec: `util.LocalityMatch` is not under `src/`.
Spec section 3: a match pattern is a Locality whose trailing components may be
empty meaning "any"; matching compares component-wise from the region down
(region must equal; if the pattern's zone is specified it must equal; likewise
the sub-zone), and the empty pattern matches everything. -/
def localityMatch (l : Option Locality) (pattern : Locality) : Bool :=
  pattern.region == "" ||
    (pattern.region == getRegion l &&
      (pattern.zone == "" ||
        (pattern.zone == getZone l &&
          (pattern.subZone == "" || pattern.subZone == getSubZone l))))

/-- Modelled from the spec: `util.LbPriority` is not under `src/`.
Spec section 4.3: tier 0 when region, zone and sub-zone all equal; tier 1 when
region and zone equal; tier 2 when the region equals; tier 3 otherwise.
Absent localities behave as empty components (proto getters). -/
def lbPriority (proxy endpoints : Option Locality) : Nat :=
  if getRegion proxy = getRegion endpoints then
    if getZone proxy = getZone endpoints then
      if getSubZone proxy = getSubZone endpoints then 0
      else 1
    else 2
  else 3

/-- Go `v1alpha3.LocalityLoadBalancerSetting_Distribute`: a `From` locality
pattern and a `To` map from locality pattern to weight.  The Go map is
modelled as an association list carrying one enumeration order. -/
structure Distribute where
  From : Locality
  To : List (Locality × Nat)
deriving DecidableEq, Repr

/-- Go `v1alpha3.LocalityLoadBalancerSetting_Failover`: a `From` region and a
`To` region. -/
structure Failover where
  From : String
  To : String
deriving DecidableEq, Repr

/-- Go `v1alpha3.LocalityLoadBalancerSetting`.  The repeated proto fields are
`Option (List _)` so that a nil slice (getter returns nil) is distinguished
from a present empty slice, as in the Go dispatch `GetDistribute() != nil`.
Entries of the `distribute` slice are pointers, hence `Option Distribute`. -/
structure LocalityLoadBalancerSetting where
  distribute : Option (List (Option Distribute))
  failover : Option (List Failover)
  enabled : Option Bool
deriving DecidableEq, Repr

/-- Go getter `GetDistribute` on a possibly-nil setting. -/
def getDistribute (s : Option LocalityLoadBalancerSetting) :
    Option (List (Option Distribute)) :=
  s.bind fun x => x.distribute

/-- Go getter `GetFailover` on a possibly-nil setting. -/
def getFailover (s : Option LocalityLoadBalancerSetting) : Option (List Failover) :=
  s.bind fun x => x.failover

/-- Go `endpoint.LocalityLbEndpoints`: one endpoint group.  The member
endpoints are opaque to this code (only ever cleared), so they are modelled
as bare numbers; `loadBalancingWeight` is a possibly-nil `*wrappers.UInt32Value`. -/
structure LocalityLbEndpoints where
  locality : Option Locality
  lbEndpoints : List Nat
  loadBalancingWeight : Option Nat
  priority : Nat
deriving DecidableEq, Repr, Inhabited

/-- Go `apiv2.ClusterLoadAssignment` (the part this code touches). -/
structure ClusterLoadAssignment where
  endpoints : List LocalityLbEndpoints
deriving DecidableEq, Repr

/-- Source `GetLocalityLbSetting` (loadbalancer.go lines 30-50): enabled iff
mesh config defines it, unless the destination rule overrides the flag; a
present destination rule wins outright over the mesh default. -/
def getLocalityLbSetting (mesh destrule : Option LocalityLoadBalancerSetting) :
    Option LocalityLoadBalancerSetting :=
  let enabled :=
    match destrule with
    | some d =>
      match d.enabled with
      | some b => b
      | none => mesh.isSome
    | none => mesh.isSome
  if enabled then
    match destrule with
    | some d => some d
    | none => mesh
  else none

/-- Wrap bound of Go `uint32` arithmetic. -/
def U32 : Nat := 2 ^ 32

/-- Original weight of a group (loadbalancer.go lines 100-104): the stored
`LoadBalancingWeight.Value` if the wrapper is non-nil, else 1. -/
def origWeight (e : LocalityLbEndpoints) : Nat :=
  match e.loadBalancingWeight with
  | some w => w
  | none => 1

/-- Ceiling division on naturals; for `0 < t` this is the exact value of Go's
`uint32(math.Ceil(float64(n) / float64(t)))` when `n t < 2 ^ 32`: both
operands convert to `float64` exactly, and the rounded quotient can never
cross an integer (the quotient is within `2 ^ 32` and a non-integer exact
quotient sits at distance at least `1 / t` from the neighbouring integers,
which is larger than half an ulp there). -/
def ceilDiv (n t : Nat) : Nat := (n + t - 1) / t

/-- Result of Go's conversion `uint32(math.Ceil(destWeight))` when
`totalWeight` is 0 and the numerator is non-zero, i.e. of converting the
`float64` value `+Inf` to `uint32`.  The Go specification leaves this value
implementation-dependent; we fix the value produced on amd64.  No theorem
below depends on this choice. -/
def infConv : Nat := 0

/-- One weight assignment (loadbalancer.go lines 111-118): the numerator
`originalWeight * weight` wraps as Go `uint32`; the weight is only written
when the computed `destWeight` compares greater than 0 (`float64(0)/0` is NaN
and compares false, `float64(n)/0` for positive `n` is `+Inf` and compares
true). -/
def assignWeight (weight totalWeight : Nat) (e : LocalityLbEndpoints) :
    LocalityLbEndpoints :=
  let n := origWeight e * weight % U32
  if totalWeight = 0 then
    if n = 0 then e
    else { e with loadBalancingWeight := some infConv }
  else
    if n = 0 then e
    else { e with loadBalancingWeight := some (ceilDiv n totalWeight) }

/-- First inner loop of a `to` entry (loadbalancer.go lines 96-108): walk the
endpoint groups in order from index `i`, and collect `(index, originalWeight)`
for every group still in `misMatched` whose locality matches the pattern. -/
def destLocMapFrom (mis : Finset Nat) (pattern : Locality) :
    Nat → List LocalityLbEndpoints → List (Nat × Nat)
  | _, [] => []
  | i, e :: rest =>
    if i ∈ mis ∧ localityMatch e.locality pattern then
      (i, origWeight e) :: destLocMapFrom mis pattern (i + 1) rest
    else
      destLocMapFrom mis pattern (i + 1) rest

/-- Apply `f` to the groups whose index (counting from `i`) satisfies `p`,
leaving the others untouched. -/
def updateWhere (p : Nat → Bool) (f : LocalityLbEndpoints → LocalityLbEndpoints) :
    Nat → List LocalityLbEndpoints → List LocalityLbEndpoints
  | _, [] => []
  | i, e :: rest =>
    (if p i then f e else e) :: updateWhere p f (i + 1) rest

/-- Indices claimed by one `to` entry. -/
def claimedIdx (mis : Finset Nat) (pattern : Locality)
    (eps : List LocalityLbEndpoints) : List Nat :=
  (destLocMapFrom mis pattern 0 eps).map Prod.fst

/-- The Go variable `totalWeight` of one `to` entry: the `uint32` sum of the
collected original weights. -/
def totalWeightOf (mis : Finset Nat) (pattern : Locality)
    (eps : List LocalityLbEndpoints) : Nat :=
  ((destLocMapFrom mis pattern 0 eps).map Prod.snd).sum % U32

/-- One iteration of the loop over the matched rule's `to` entries
(loadbalancer.go lines 92-119): collect the claimed groups and their weights,
assign the proportional weights, and remove the claimed indices from the
`misMatched` set. -/
def applyToEntry (st : List LocalityLbEndpoints × Finset Nat)
    (pw : Locality × Nat) : List LocalityLbEndpoints × Finset Nat :=
  let dlm := destLocMapFrom st.2 pw.1 0 st.1
  let totalWeight := (dlm.map Prod.snd).sum % U32
  let eps := updateWhere (fun i => decide (i ∈ dlm.map Prod.fst))
    (assignWeight pw.2 totalWeight) 0 st.1
  (eps, st.2 \ (dlm.map Prod.fst).toFinset)

/-- Body of `applyLocalityWeight` once a rule has matched (loadbalancer.go
lines 88-125): start with every index mismatched, process the `to` entries in
order, then clear the member list of every group still mismatched. -/
def applyDistributeRule (d : Distribute) (eps : List LocalityLbEndpoints) :
    List LocalityLbEndpoints :=
  let st := d.To.foldl applyToEntry (eps, (List.range eps.length).toFinset)
  updateWhere (fun i => decide (i ∈ st.2)) (fun e => { e with lbEndpoints := [] })
    0 st.1

/-- Loop of loadbalancer.go lines 85-127: skip nil rules, apply the first rule
whose `From` pattern matches the caller locality, then break. -/
def applyFirstMatching (locality : Option Locality)
    (eps : List LocalityLbEndpoints) :
    List (Option Distribute) → List LocalityLbEndpoints
  | [] => eps
  | none :: rest => applyFirstMatching locality eps rest
  | some d :: rest =>
    if localityMatch locality d.From then applyDistributeRule d eps
    else applyFirstMatching locality eps rest

/-- Source `applyLocalityWeight` (loadbalancer.go lines 72-128). -/
def applyLocalityWeight (locality : Option Locality)
    (eps : List LocalityLbEndpoints)
    (distribute : Option (List (Option Distribute))) : List LocalityLbEndpoints :=
  match distribute with
  | none => eps
  | some ds => applyFirstMatching locality eps ds

/-- Inner loop of loadbalancer.go lines 147-156: when the raw priority is 3,
consult the first failover rule whose `From` equals the caller's region; if
the group's locality is nil or its region differs from that rule's `To`,
escalate to 4; in either case stop scanning. -/
def escalateFailover (callerRegion : String) (epLocality : Option Locality) :
    List Failover → Nat
  | [] => 3
  | f :: rest =>
    if f.From = callerRegion then
      match epLocality with
      | none => 4
      | some l => if l.region = f.To then 3 else 4
    else escalateFailover callerRegion epLocality rest

/-- Raw (possibly escalated) priority of one group in the first pass of
`applyLocalityFailover` (loadbalancer.go lines 139-158). -/
def rawPriority (locality : Locality) (failover : List Failover)
    (epLocality : Option Locality) : Nat :=
  let priority := lbPriority (some locality) epLocality
  if priority = 3 then escalateFailover locality.region epLocality failover
  else priority

/-- The list of raw priorities of all groups, in order. -/
def rawPriorities (locality : Locality) (failover : List Failover)
    (eps : List LocalityLbEndpoints) : List Nat :=
  eps.map fun e => rawPriority locality failover e.locality

/-- Source `applyLocalityFailover` (loadbalancer.go lines 131-180): first pass
stores each group's raw priority; second pass sorts the distinct priorities
present and replaces each by its rank in that sorted sequence (the Go code
skips the write when rank and value already agree, which is the identity). -/
def applyLocalityFailover (locality : Locality)
    (eps : List LocalityLbEndpoints) (failover : List Failover) :
    List LocalityLbEndpoints :=
  let withRaw := eps.map fun e =>
    { e with priority := rawPriority locality failover e.locality }
  let priorities := ((withRaw.map fun e => e.priority).toFinset).sort (· ≤ ·)
  withRaw.map fun e => { e with priority := priorities.indexOf e.priority }

/-- Source `ApplyLocalityLBSetting` (loadbalancer.go lines 52-69): no-op when
the caller locality or the load assignment is nil; otherwise apply weight
distribution when `GetDistribute()` is non-nil, else failover when enabled. -/
def applyLocalityLBSetting (locality : Option Locality)
    (loadAssignment : Option ClusterLoadAssignment)
    (localityLB : Option LocalityLoadBalancerSetting)
    (enableFailover : Bool) : Option ClusterLoadAssignment :=
  match locality, loadAssignment with
  | some loc, some la =>
    match getDistribute localityLB with
    | some ds =>
      some ⟨applyLocalityWeight (some loc) la.endpoints (some ds)⟩
    | none =>
      if enableFailover then
        some ⟨applyLocalityFailover loc la.endpoints ((getFailover localityLB).getD [])⟩
      else some la
  | _, _ => loadAssignment

/-- Definition following the claim's words (not the source), used only to
compare against the source behaviour: the asserted assigned weight
`ceiling(originalWeight * ruleWeight / totalWeight)` with exact (unbounded)
integer arithmetic. -/
def specAssignedWeight (originalWeight ruleWeight totalWeight : Nat) : Nat :=
  ceilDiv (originalWeight * ruleWeight) totalWeight

/-- Concrete sample group (region us-east) used by witnesses below. -/
def epUsEast : LocalityLbEndpoints := ⟨some ⟨"us-east", "z1", "s1"⟩, [1], none, 0⟩

/-- Concrete sample group (region us-west) used by witnesses below. -/
def epUsWest : LocalityLbEndpoints := ⟨some ⟨"us-west", "z1", "s1"⟩, [2], none, 0⟩

/-- Concrete sample group in r1/z1 used by witnesses and counterexamples. -/
def epR1Z1 : LocalityLbEndpoints := ⟨some ⟨"r1", "z1", ""⟩, [7], none, 0⟩

/-- Concrete sample group in r1/z2 used by witnesses and counterexamples. -/
def epR1Z2 : LocalityLbEndpoints := ⟨some ⟨"r1", "z2", ""⟩, [8], none, 0⟩

/-- Wildcard pattern matching all of region r1. -/
def patR1 : Locality := ⟨"r1", "", ""⟩

/-- Pattern matching zone z1 of region r1. -/
def patR1Z1 : Locality := ⟨"r1", "z1", ""⟩

/-- Concrete group with stored weight 131072 used by the C2 counterexample. -/
def epBig : LocalityLbEndpoints := ⟨some ⟨"r1", "z1", ""⟩, [1], some 131072, 0⟩

/-- Concrete group with stored weight 3 used by the C2 witness. -/
def epW3 : LocalityLbEndpoints := ⟨some ⟨"r1", "z1", ""⟩, [1], some 3, 0⟩

/-- Concrete group with stored weight 0 used by the C6 witness. -/
def epW0 : LocalityLbEndpoints := ⟨some ⟨"r1", "z1", ""⟩, [1], some 0, 0⟩

/-- Concrete rule distributing all weight to zone z1 of r1, used by the C4
witness. -/
def ruleZ1 : Distribute := ⟨patR1, [(patR1Z1, 50)]⟩

/-! Infrastructure lemmas. -/

theorem updateWhere_length (p : Nat → Bool) (f : LocalityLbEndpoints → LocalityLbEndpoints) :
    ∀ (k : Nat) (l : List LocalityLbEndpoints), (updateWhere p f k l).length = l.length := by
  intro k l
  induction l generalizing k with
  | nil => rfl
  | cons e rest ih => simp [updateWhere, ih]

theorem updateWhere_getElem? (p : Nat → Bool) (f : LocalityLbEndpoints → LocalityLbEndpoints) :
    ∀ (l : List LocalityLbEndpoints) (k j : Nat),
      (updateWhere p f k l)[j]? = (l[j]?).map fun e => if p (k + j) then f e else e := by
  intro l
  induction l with
  | nil => intro k j; simp [updateWhere]
  | cons e rest ih =>
    intro k j
    cases j with
    | zero => simp [updateWhere]
    | succ j =>
      have hk : k + (j + 1) = (k + 1) + j := by omega
      simp [updateWhere, hk, ih (k + 1) j]

theorem destLocMapFrom_spec (mis : Finset Nat) (pattern : Locality) :
    ∀ (l : List LocalityLbEndpoints) (k i : Nat),
      i ∈ (destLocMapFrom mis pattern k l).map Prod.fst →
      ∃ j e, i = k + j ∧ l[j]? = some e ∧ i ∈ mis ∧
        localityMatch e.locality pattern = true ∧
        (i, origWeight e) ∈ destLocMapFrom mis pattern k l := by
  intro l
  induction l with
  | nil => intro k i h; simp [destLocMapFrom] at h
  | cons e rest ih =>
    intro k i h
    by_cases hc : k ∈ mis ∧ localityMatch e.locality pattern
    · rw [destLocMapFrom, if_pos hc] at h ⊢
      simp only [List.map_cons, List.mem_cons] at h
      rcases h with h | h
      · refine ⟨0, e, by omega, by simp, ?_, hc.2, ?_⟩
        · simpa [h] using hc.1
        · simp [h]
      · rcases ih (k + 1) i h with ⟨j, e', hij, hget, him, hm, hpair⟩
        exact ⟨j + 1, e', by omega, by simpa using hget, him, hm,
          List.mem_cons_of_mem _ hpair⟩
    · rw [destLocMapFrom, if_neg hc] at h ⊢
      rcases ih (k + 1) i h with ⟨j, e', hij, hget, him, hm, hpair⟩
      exact ⟨j + 1, e', by omega, by simpa using hget, him, hm, hpair⟩

theorem ceilDiv_ge_one (n t : Nat) (hn : n ≠ 0) (ht : t ≠ 0) : 1 ≤ ceilDiv n t := by
  rw [ceilDiv, Nat.le_div_iff_mul_le (Nat.pos_of_ne_zero ht), one_mul]
  omega

theorem applyFirstMatching_eq (loc : Option Locality) (eps : List LocalityLbEndpoints) :
    ∀ ds : List (Option Distribute),
      applyFirstMatching loc eps ds =
        match ds.find? (fun o =>
            match o with
            | some d => localityMatch loc d.From
            | none => false) with
        | some (some d) => applyDistributeRule d eps
        | _ => eps := by
  intro ds
  induction ds with
  | nil => rfl
  | cons o rest ih =>
    cases o with
    | none => simpa [applyFirstMatching, List.find?] using ih
    | some d =>
      by_cases hm : localityMatch loc d.From
      · simp [applyFirstMatching, hm, List.find?]
      · simpa [applyFirstMatching, hm, List.find?] using ih

theorem applyToEntry_fst_length (st : List LocalityLbEndpoints × Finset Nat)
    (pw : Locality × Nat) : (applyToEntry st pw).1.length = st.1.length := by
  simp [applyToEntry, updateWhere_length]

theorem foldl_applyToEntry_fst_length :
    ∀ (l : List (Locality × Nat)) (st : List LocalityLbEndpoints × Finset Nat),
      (l.foldl applyToEntry st).1.length = st.1.length := by
  intro l
  induction l with
  | nil => intro st; rfl
  | cons pw rest ih =>
    intro st
    rw [List.foldl_cons, ih, applyToEntry_fst_length]

/-! Claim theorems. -/

/-- C8: `GetLocalityLbSetting` returns the mesh policy when only the mesh
policy is present; returns disabled (nil) when the mesh policy is absent and
the destination policy sets `enabled = false`; and returns the destination
policy whole (never merged with the mesh policy) whenever the destination
policy sets `enabled = true`, for every mesh policy. -/
theorem C8_policy_resolution (m d : LocalityLoadBalancerSetting) :
    getLocalityLbSetting (some m) none = some m
  ∧ getLocalityLbSetting none (some { d with enabled := some false }) = none
  ∧ ∀ mo : Option LocalityLoadBalancerSetting,
      getLocalityLbSetting mo (some { d with enabled := some true })
        = some { d with enabled := some true } :=
  ⟨rfl, rfl, fun _ => rfl⟩

/-- C9: when the caller locality or the load assignment is nil,
`ApplyLocalityLBSetting` leaves the load assignment entirely unchanged. -/
theorem C9_nil_frame (loc : Option Locality) (la : Option ClusterLoadAssignment)
    (lb : Option LocalityLoadBalancerSetting) (ef : Bool)
    (h : loc = none ∨ la = none) :
    applyLocalityLBSetting loc la lb ef = la := by
  rcases h with h | h
  · subst h; cases la <;> rfl
  · subst h; cases loc <;> rfl

/-- Witness for C9 at a concrete input. -/
theorem C9_nil_frame_witness :
    ((none : Option Locality) = none ∨ (some (⟨[]⟩ : ClusterLoadAssignment)) = none)
  ∧ applyLocalityLBSetting none (some ⟨[]⟩) none false = some ⟨[]⟩ :=
  ⟨Or.inl rfl, C9_nil_frame none (some ⟨[]⟩) none false (Or.inl rfl)⟩

/-- C3: `applyLocalityWeight` applies exactly the first rule (in list order)
whose `from` pattern matches the caller locality — its result is a function
of that first matching rule alone — and leaves the load assignment unchanged
when no rule matches. -/
theorem C3_first_matching_rule (loc : Option Locality)
    (eps : List LocalityLbEndpoints) (ds : List (Option Distribute)) :
    applyLocalityWeight loc eps (some ds) =
      match ds.find? (fun o =>
          match o with
          | some d => localityMatch loc d.From
          | none => false) with
      | some (some d) => applyDistributeRule d eps
      | _ => eps := by
  simpa [applyLocalityWeight] using applyFirstMatching_eq loc eps ds

/-- C7: with raw tier 3, the group is escalated to tier 4 exactly when the
first failover rule whose `from` equals the caller's region exists and the
group's region differs from that rule's `to` (including an absent locality);
only that first rule is consulted, and a group whose region equals the rule's
`to` keeps tier 3. -/
theorem C7_failover_escalation (loc : Locality) (fo : List Failover)
    (epLoc : Option Locality) (h : lbPriority (some loc) epLoc = 3) :
    rawPriority loc fo epLoc =
      match fo.find? (fun f => f.From == loc.region) with
      | none => 3
      | some f =>
        match epLoc with
        | none => 4
        | some l => if l.region = f.To then 3 else 4 := by
  rw [rawPriority]
  simp only [h, if_pos rfl]
  induction fo with
  | nil => rfl
  | cons f rest ih =>
    by_cases hf : f.From = loc.region
    · rw [escalateFailover.eq_def]
      simp only [if_pos hf]
      rw [List.find?_cons_of_pos _ (by simpa using hf)]
      cases epLoc with
      | none => rfl
      | some l => by_cases hr : l.region = f.To <;> simp [hr]
    · rw [escalateFailover.eq_def]
      simp only [if_neg hf]
      rw [List.find?_cons_of_neg _ (by simpa using hf)]
      exact ih

/-- Witness for C7 at the spec's own example: caller region us-east, group
region us-west, failover rule from us-east to eu-central, so the tier
escalates to 4. -/
theorem C7_failover_escalation_witness :
    lbPriority (some ⟨"us-east", "z1", "s1"⟩) (some ⟨"us-west", "z2", "s2"⟩) = 3
  ∧ rawPriority ⟨"us-east", "z1", "s1"⟩ [⟨"us-east", "eu-central"⟩]
      (some ⟨"us-west", "z2", "s2"⟩) =
      match List.find? (fun f => f.From == "us-east")
          [(⟨"us-east", "eu-central"⟩ : Failover)] with
      | none => 3
      | some f =>
        match (some (⟨"us-west", "z2", "s2"⟩ : Locality) : Option Locality) with
        | none => 4
        | some l => if l.region = f.To then 3 else 4 :=
  ⟨by decide, C7_failover_escalation ⟨"us-east", "z1", "s1"⟩ _ _ (by decide)⟩

theorem list_toFinset_map (l : List Nat) (f : Nat → Nat) :
    (l.map f).toFinset = l.toFinset.image f := by
  ext a
  simp

theorem sorted_indexOf_image (s : Finset Nat) :
    s.image (fun a => (s.sort (· ≤ ·)).indexOf a) = Finset.range s.card := by
  ext j
  simp only [Finset.mem_image, Finset.mem_range]
  constructor
  · rintro ⟨a, ha, rfl⟩
    have hmem : a ∈ s.sort (· ≤ ·) := (Finset.mem_sort _).mpr ha
    simpa [Finset.length_sort] using List.indexOf_lt_length.mpr hmem
  · intro hj
    have hj' : j < (s.sort (· ≤ ·)).length := by
      simpa [Finset.length_sort] using hj
    refine ⟨(s.sort (· ≤ ·))[j], ?_, ?_⟩
    · exact (Finset.mem_sort _).mp (List.getElem_mem hj')
    · exact List.indexOf_getElem (Finset.sort_nodup _ _) j hj'

theorem sorted_min_indexOf (L : List Nat) (m : Nat) (hm : m ∈ L)
    (hmin : ∀ x ∈ L, m ≤ x) :
    (L.toFinset.sort (· ≤ ·)).indexOf m = 0 := by
  have hml : m ∈ L.toFinset.sort (· ≤ ·) :=
    (Finset.mem_sort _).mpr (List.mem_toFinset.mpr hm)
  obtain ⟨a, t, hat⟩ := List.exists_cons_of_ne_nil (List.ne_nil_of_mem hml)
  have hsorted : List.Sorted (· ≤ ·) (L.toFinset.sort (· ≤ ·)) :=
    Finset.sort_sorted _ _
  have ham : a ∈ L := by
    have haml : a ∈ L.toFinset.sort (· ≤ ·) := by
      rw [hat]; exact List.mem_cons_self a t
    exact List.mem_toFinset.mp ((Finset.mem_sort _).mp haml)
  have hma : m = a := by
    have hm' : m ∈ a :: t := hat ▸ hml
    rcases List.mem_cons.mp hm' with h | h
    · exact h
    · have h1 : a ≤ m := List.rel_of_sorted_cons (hat ▸ hsorted) m h
      exact le_antisymm (hmin a ham) h1
  rw [hat, hma, List.indexOf_cons_self]

theorem applyLocalityFailover_priorities (loc : Locality) (fo : List Failover)
    (eps : List LocalityLbEndpoints) :
    (applyLocalityFailover loc eps fo).map (fun e => e.priority)
      = (rawPriorities loc fo eps).map
          (fun p => ((rawPriorities loc fo eps).toFinset.sort (· ≤ ·)).indexOf p) := by
  simp only [applyLocalityFailover, rawPriorities, List.map_map]
  rfl

theorem failover_priorities_toFinset (loc : Locality) (fo : List Failover)
    (eps : List LocalityLbEndpoints) :
    ((applyLocalityFailover loc eps fo).map (fun e => e.priority)).toFinset
      = Finset.range ((rawPriorities loc fo eps).toFinset.card) := by
  rw [applyLocalityFailover_priorities, list_toFinset_map]
  exact sorted_indexOf_image _

/-- C1: after `applyLocalityFailover` on a non-empty load assignment, the set
of stored priorities is exactly `{0, ..., k}` where `k + 1` is the number of
distinct raw/escalated tiers of the first pass; groups sharing a raw tier
share the compacted priority, and the smallest tier present maps to 0. -/
theorem C1_priority_compaction (loc : Locality) (fo : List Failover)
    (eps : List LocalityLbEndpoints) (_hne : eps ≠ []) :
    (((applyLocalityFailover loc eps fo).map fun e => e.priority).toFinset
        = Finset.range ((rawPriorities loc fo eps).toFinset.card))
  ∧ (∀ i j : Nat,
      (rawPriorities loc fo eps)[i]? = (rawPriorities loc fo eps)[j]? →
      ((applyLocalityFailover loc eps fo).map fun e => e.priority)[i]?
        = ((applyLocalityFailover loc eps fo).map fun e => e.priority)[j]?)
  ∧ (∀ i m : Nat,
      (rawPriorities loc fo eps)[i]? = some m →
      (∀ x ∈ rawPriorities loc fo eps, m ≤ x) →
      ((applyLocalityFailover loc eps fo).map fun e => e.priority)[i]? = some 0) := by
  refine ⟨failover_priorities_toFinset loc fo eps, ?_, ?_⟩
  · intro i j h
    rw [applyLocalityFailover_priorities, List.getElem?_map, List.getElem?_map, h]
  · intro i m hm hmin
    rw [applyLocalityFailover_priorities, List.getElem?_map, hm]
    have hmem : m ∈ rawPriorities loc fo eps := by
      obtain ⟨hlt, hEq⟩ := List.getElem?_eq_some.mp hm
      exact hEq ▸ List.getElem_mem hlt
    simp [sorted_min_indexOf (rawPriorities loc fo eps) m hmem hmin]

/-- Witness for C1 at a concrete two-group assignment. -/
theorem C1_priority_compaction_witness :
    ([epUsEast, epUsWest] ≠ ([] : List LocalityLbEndpoints))
  ∧ ((((applyLocalityFailover ⟨"us-east", "z1", "s1"⟩ [epUsEast, epUsWest] []).map
        fun e => e.priority).toFinset
      = Finset.range ((rawPriorities ⟨"us-east", "z1", "s1"⟩ [] [epUsEast, epUsWest]).toFinset.card))
    ∧ (∀ i j : Nat,
        (rawPriorities ⟨"us-east", "z1", "s1"⟩ [] [epUsEast, epUsWest])[i]?
          = (rawPriorities ⟨"us-east", "z1", "s1"⟩ [] [epUsEast, epUsWest])[j]? →
        ((applyLocalityFailover ⟨"us-east", "z1", "s1"⟩ [epUsEast, epUsWest] []).map
            fun e => e.priority)[i]?
          = ((applyLocalityFailover ⟨"us-east", "z1", "s1"⟩ [epUsEast, epUsWest] []).map
            fun e => e.priority)[j]?)
    ∧ (∀ i m : Nat,
        (rawPriorities ⟨"us-east", "z1", "s1"⟩ [] [epUsEast, epUsWest])[i]? = some m →
        (∀ x ∈ rawPriorities ⟨"us-east", "z1", "s1"⟩ [] [epUsEast, epUsWest], m ≤ x) →
        ((applyLocalityFailover ⟨"us-east", "z1", "s1"⟩ [epUsEast, epUsWest] []).map
          fun e => e.priority)[i]? = some 0)) :=
  ⟨by decide, C1_priority_compaction ⟨"us-east", "z1", "s1"⟩ [] [epUsEast, epUsWest] (by decide)⟩

/-- C10: with a non-nil caller locality and load assignment but a nil policy
and `enableFailover = true`, `ApplyLocalityLBSetting` still runs the failover
assignment with an empty failover rule list: priorities come from locality
closeness with no tier-4 escalation and are compacted. -/
theorem C10_nil_policy_failover (loc : Locality) (la : ClusterLoadAssignment) :
    applyLocalityLBSetting (some loc) (some la) none true
      = some ⟨applyLocalityFailover loc la.endpoints []⟩
  ∧ (∀ epLoc : Option Locality, rawPriority loc [] epLoc = lbPriority (some loc) epLoc)
  ∧ ((applyLocalityFailover loc la.endpoints []).map fun e => e.priority).toFinset
      = Finset.range ((rawPriorities loc [] la.endpoints).toFinset.card) := by
  refine ⟨rfl, ?_, failover_priorities_toFinset loc [] la.endpoints⟩
  intro epLoc
  by_cases h : lbPriority (some loc) epLoc = 3 <;>
    simp [rawPriority, escalateFailover, h]

/-- C2 (amended): for one `to` entry of the first matching rule, every claimed
group with non-zero wrapped numerator `originalWeight * ruleWeight mod 2^32`
is assigned `ceiling(numerator / totalWeight)` (and that weight is at least 1
when `totalWeight > 0`); a claimed group with wrapped numerator 0 and every
unclaimed group keep their weight untouched.  The original claim's exact
formula without the 32-bit wrap is refuted by the counterexample below. -/
theorem C2_weight_assignment (pw : Locality × Nat) (eps : List LocalityLbEndpoints)
    (mis : Finset Nat) (i : Nat) (e : LocalityLbEndpoints)
    (he : eps[i]? = some e)
    (ht : totalWeightOf mis pw.1 eps ≠ 0) :
    ((i ∈ claimedIdx mis pw.1 eps ∧ origWeight e * pw.2 % U32 ≠ 0 →
      (applyToEntry (eps, mis) pw).1[i]?
        = some { e with
            loadBalancingWeight := some (ceilDiv (origWeight e * pw.2 % U32)
              (totalWeightOf mis pw.1 eps)) }
      ∧ 1 ≤ ceilDiv (origWeight e * pw.2 % U32) (totalWeightOf mis pw.1 eps)))
  ∧ ((i ∈ claimedIdx mis pw.1 eps ∧ origWeight e * pw.2 % U32 = 0 →
      (applyToEntry (eps, mis) pw).1[i]? = some e))
  ∧ (i ∉ claimedIdx mis pw.1 eps →
      (applyToEntry (eps, mis) pw).1[i]? = some e) := by
  have hbase : (applyToEntry (eps, mis) pw).1[i]?
      = some (if i ∈ claimedIdx mis pw.1 eps
          then assignWeight pw.2 (totalWeightOf mis pw.1 eps) e else e) := by
    simp only [applyToEntry]
    rw [updateWhere_getElem?, he]
    by_cases hc : i ∈ (destLocMapFrom mis pw.1 0 eps).map Prod.fst <;>
      simp [claimedIdx, totalWeightOf, hc]
  refine ⟨?_, ?_, ?_⟩
  · rintro ⟨hin, hn⟩
    rw [hbase, if_pos hin]
    exact ⟨by simp [assignWeight, ht, hn], ceilDiv_ge_one _ _ hn ht⟩
  · rintro ⟨hin, hn⟩
    rw [hbase, if_pos hin]
    simp [assignWeight, ht, hn]
  · intro hout
    rw [hbase, if_neg hout]

/-- Witness for C2 at a single claimed group of stored weight 3 and rule
weight 100: the assigned weight is `ceil(300 / 3) = 100`. -/
theorem C2_weight_assignment_witness :
    (([epW3] : List LocalityLbEndpoints)[0]? = some epW3)
  ∧ totalWeightOf {0} patR1Z1 [epW3] ≠ 0
  ∧ (((0 ∈ claimedIdx {0} patR1Z1 [epW3] ∧ origWeight epW3 * 100 % U32 ≠ 0 →
        (applyToEntry ([epW3], {0}) (patR1Z1, 100)).1[0]?
          = some { epW3 with
              loadBalancingWeight := some (ceilDiv (origWeight epW3 * 100 % U32)
                (totalWeightOf {0} patR1Z1 [epW3])) }
        ∧ 1 ≤ ceilDiv (origWeight epW3 * 100 % U32) (totalWeightOf {0} patR1Z1 [epW3])))
    ∧ ((0 ∈ claimedIdx {0} patR1Z1 [epW3] ∧ origWeight epW3 * 100 % U32 = 0 →
        (applyToEntry ([epW3], {0}) (patR1Z1, 100)).1[0]? = some epW3))
    ∧ (0 ∉ claimedIdx {0} patR1Z1 [epW3] →
        (applyToEntry ([epW3], {0}) (patR1Z1, 100)).1[0]? = some epW3)) :=
  ⟨rfl, by decide, C2_weight_assignment (patR1Z1, 100) [epW3] {0} 0 epW3 rfl (by decide)⟩

/-- Counterexample to C2 as stated: one group with stored weight 131072 is
claimed by a `to` entry of weight 32768 (totalWeight 131072).  The claim's
formula `ceiling(131072 * 32768 / 131072) = 32768` is positive, so the claim
says the weight is overwritten with 32768; the Go code computes the numerator
in `uint32`, `131072 * 32768` wraps to 0, `destWeight` is 0 and the stored
weight stays 131072. -/
theorem C2_weight_formula_counterexample :
    0 ∈ claimedIdx ((List.range 1).toFinset) patR1 [epBig]
  ∧ (applyDistributeRule ⟨patR1, [(patR1, 32768)]⟩ [epBig]).map
      (fun e => e.loadBalancingWeight) = [some 131072]
  ∧ specAssignedWeight 131072 32768 131072 = 32768
  ∧ (131072 : Nat) ≠ 32768 := by
  refine ⟨?_, ?_, ?_, ?_⟩ <;> decide

/-- C6: when the sum of the original weights collected for a `to` entry is 0
(hence the Go `totalWeight` is 0), no weight is assigned: every group keeps
its weight (indeed the whole group list is unchanged, since `0/0` is NaN in
Go and compares false against 0), the claimed indices are still removed from
the mismatched pool, and processing continues with the remaining `to`
entries.  No arithmetic fault exists: the embedding is total, as is Go
float64 division. -/
theorem C6_zero_totalWeight (pw : Locality × Nat) (eps : List LocalityLbEndpoints)
    (mis : Finset Nat)
    (h : ((destLocMapFrom mis pw.1 0 eps).map Prod.snd).sum = 0) :
    (applyToEntry (eps, mis) pw).1 = eps
  ∧ (applyToEntry (eps, mis) pw).2 = mis \ (claimedIdx mis pw.1 eps).toFinset
  ∧ ∀ rest : List (Locality × Nat),
      (pw :: rest).foldl applyToEntry (eps, mis)
        = rest.foldl applyToEntry (eps, mis \ (claimedIdx mis pw.1 eps).toFinset) := by
  have h1 : (applyToEntry (eps, mis) pw).1 = eps := by
    apply List.ext_getElem?
    intro j
    simp only [applyToEntry]
    rw [updateWhere_getElem?]
    cases hej : eps[j]? with
    | none => rfl
    | some e =>
      by_cases hc : j ∈ (destLocMapFrom mis pw.1 0 eps).map Prod.fst
      · obtain ⟨j', e', hj', hget, _, _, hpair⟩ :=
          destLocMapFrom_spec mis pw.1 eps 0 j hc
        have hjj : j' = j := by omega
        subst hjj
        rw [hej] at hget
        have hee : e' = e := by injection hget with hEq; exact hEq.symm
        subst hee
        have hw : origWeight e' = 0 := by
          have hmem : origWeight e' ∈ (destLocMapFrom mis pw.1 0 eps).map Prod.snd :=
            List.mem_map_of_mem Prod.snd hpair
          exact List.sum_eq_zero_iff.mp h _ hmem
        simp [hc, assignWeight, h, hw]
      · simp [hc]
  have h2 : (applyToEntry (eps, mis) pw).2
      = mis \ (claimedIdx mis pw.1 eps).toFinset := rfl
  refine ⟨h1, h2, ?_⟩
  intro rest
  rw [List.foldl_cons]
  have hst : applyToEntry (eps, mis) pw
      = (eps, mis \ (claimedIdx mis pw.1 eps).toFinset) := by
    rw [Prod.ext_iff]
    exact ⟨h1, h2⟩
  rw [hst]

/-- Witness for C6 at a single claimed group of stored weight 0. -/
theorem C6_zero_totalWeight_witness :
    ((destLocMapFrom ({0} : Finset Nat) patR1Z1 0 [epW0]).map Prod.snd).sum = 0
  ∧ ((applyToEntry ([epW0], {0}) (patR1Z1, 100)).1 = [epW0]
    ∧ (applyToEntry ([epW0], {0}) (patR1Z1, 100)).2
        = ({0} : Finset Nat) \ (claimedIdx {0} patR1Z1 [epW0]).toFinset
    ∧ ∀ rest : List (Locality × Nat),
        ((patR1Z1, 100) :: rest).foldl applyToEntry ([epW0], {0})
          = rest.foldl applyToEntry
              ([epW0], ({0} : Finset Nat) \ (claimedIdx {0} patR1Z1 [epW0]).toFinset)) :=
  ⟨by decide, C6_zero_totalWeight (patR1Z1, 100) [epW0] {0} (by decide)⟩

theorem foldl_applyToEntry_untouched (i : Nat) (e : LocalityLbEndpoints) :
    ∀ (l : List (Locality × Nat)) (eps : List LocalityLbEndpoints) (mis : Finset Nat),
      eps[i]? = some e → i ∈ mis →
      (∀ pw ∈ l, localityMatch e.locality pw.1 = false) →
      (l.foldl applyToEntry (eps, mis)).1[i]? = some e
        ∧ i ∈ (l.foldl applyToEntry (eps, mis)).2 := by
  intro l
  induction l with
  | nil => intro eps mis he him _; exact ⟨he, him⟩
  | cons pw rest ih =>
    intro eps mis he him hmatch
    rw [List.foldl_cons]
    have hnotcl : i ∉ (destLocMapFrom mis pw.1 0 eps).map Prod.fst := by
      intro hc
      obtain ⟨j, e', hj, hget, _, hm, _⟩ := destLocMapFrom_spec mis pw.1 eps 0 i hc
      have hji : j = i := by omega
      subst hji
      rw [he] at hget
      have hee : e' = e := by injection hget with hEq; exact hEq.symm
      subst hee
      rw [hmatch pw (List.mem_cons_self pw rest)] at hm
      cases hm
    have h1 : (applyToEntry (eps, mis) pw).1[i]? = some e := by
      simp only [applyToEntry]
      rw [updateWhere_getElem?, he]
      simp [hnotcl]
    have h2 : i ∈ (applyToEntry (eps, mis) pw).2 := by
      simp only [applyToEntry]
      simp [Finset.mem_sdiff, him, List.mem_toFinset, hnotcl]
    exact ih (applyToEntry (eps, mis) pw).1 (applyToEntry (eps, mis) pw).2 h1 h2
      (fun pw' hpw' => hmatch pw' (List.mem_cons_of_mem _ hpw'))

/-- C4: after the first matching `from` rule is applied, every group whose
locality matches none of the rule's `to` patterns keeps its locality, weight
and priority but has its endpoint member list cleared, and the number of
groups is unchanged. -/
theorem C4_unmatched_groups_cleared (loc : Option Locality)
    (ds : List (Option Distribute)) (d : Distribute)
    (eps : List LocalityLbEndpoints) (i : Nat) (e : LocalityLbEndpoints)
    (hfind : ds.find? (fun o =>
        match o with
        | some d' => localityMatch loc d'.From
        | none => false) = some (some d))
    (he : eps[i]? = some e)
    (hno : ∀ pw ∈ d.To, localityMatch e.locality pw.1 = false) :
    (applyLocalityWeight loc eps (some ds)).length = eps.length
  ∧ (applyLocalityWeight loc eps (some ds))[i]? = some { e with lbEndpoints := [] } := by
  have hred : applyLocalityWeight loc eps (some ds) = applyDistributeRule d eps := by
    have hfm := applyFirstMatching_eq loc eps ds
    rw [hfind] at hfm
    simpa [applyLocalityWeight] using hfm
  rw [hred]
  have hi : i < eps.length := by
    by_contra hlt
    rw [List.getElem?_eq_none (by omega)] at he
    cases he
  have him : i ∈ (List.range eps.length).toFinset := by
    simp [List.mem_toFinset, List.mem_range, hi]
  obtain ⟨h1, h2⟩ := foldl_applyToEntry_untouched i e d.To eps
    ((List.range eps.length).toFinset) he him hno
  constructor
  · simp [applyDistributeRule, updateWhere_length, foldl_applyToEntry_fst_length]
  · simp only [applyDistributeRule]
    rw [updateWhere_getElem?, h1]
    simp [h2]

/-- Witness for C4: of two groups in region r1, only zone z1 is listed in the
`to` map, so the z2 group ends cleared. -/
theorem C4_unmatched_groups_cleared_witness :
    (([some ruleZ1] : List (Option Distribute)).find? (fun o =>
        match o with
        | some d' => localityMatch (some ⟨"r1", "z1", ""⟩) d'.From
        | none => false) = some (some ruleZ1))
  ∧ (([epR1Z1, epR1Z2] : List LocalityLbEndpoints)[1]? = some epR1Z2)
  ∧ (∀ pw ∈ ruleZ1.To, localityMatch epR1Z2.locality pw.1 = false)
  ∧ ((applyLocalityWeight (some ⟨"r1", "z1", ""⟩) [epR1Z1, epR1Z2]
        (some [some ruleZ1])).length
      = ([epR1Z1, epR1Z2] : List LocalityLbEndpoints).length
    ∧ (applyLocalityWeight (some ⟨"r1", "z1", ""⟩) [epR1Z1, epR1Z2]
        (some [some ruleZ1]))[1]?
      = some { epR1Z2 with lbEndpoints := [] }) :=
  ⟨by decide, rfl, by decide,
    C4_unmatched_groups_cleared (some ⟨"r1", "z1", ""⟩)
      [some ruleZ1] ruleZ1
      [epR1Z1, epR1Z2] 1 epR1Z2 (by decide) rfl (by decide)⟩

theorem assignWeight_locality (w t : Nat) (e : LocalityLbEndpoints) :
    (assignWeight w t e).locality = e.locality := by
  rw [assignWeight]
  split <;> split <;> rfl

theorem claimed_match (mis : Finset Nat) (pattern : Locality)
    (eps : List LocalityLbEndpoints) (i : Nat) (e : LocalityLbEndpoints)
    (hc : i ∈ claimedIdx mis pattern eps) (he : eps[i]? = some e) :
    localityMatch e.locality pattern = true := by
  obtain ⟨j, e', hj, hget, _, hm, _⟩ := destLocMapFrom_spec mis pattern eps 0 i hc
  have hji : j = i := by omega
  subst hji
  rw [he] at hget
  have hee : e' = e := by injection hget with hEq; exact hEq.symm
  subst hee
  exact hm

theorem destLocMapFrom_updateWhere (q : Nat → Bool)
    (g : LocalityLbEndpoints → LocalityLbEndpoints)
    (hg : ∀ e, (g e).locality = e.locality)
    (mis mis' : Finset Nat) (pattern : Locality) :
    ∀ (l : List LocalityLbEndpoints) (k : Nat),
      (∀ j e, l[j]? = some e → localityMatch e.locality pattern = true →
        (q (k + j) = false ∧ ((k + j) ∈ mis' ↔ (k + j) ∈ mis))) →
      destLocMapFrom mis' pattern k (updateWhere q g k l)
        = destLocMapFrom mis pattern k l := by
  intro l
  induction l with
  | nil => intro k _; rfl
  | cons e rest ih =>
    intro k hcond
    have hcond' : ∀ j e', rest[j]? = some e' →
        localityMatch e'.locality pattern = true →
        (q ((k + 1) + j) = false ∧ (((k + 1) + j) ∈ mis' ↔ ((k + 1) + j) ∈ mis)) := by
      intro j e' hje hm'
      have h := hcond (j + 1) e' (by simpa using hje) hm'
      have harr : k + (j + 1) = (k + 1) + j := by omega
      rwa [harr] at h
    rw [updateWhere]
    by_cases hm : localityMatch e.locality pattern = true
    · obtain ⟨hqk, hiff⟩ := by
        have h := hcond 0 e (by simp) hm
        rwa [Nat.add_zero] at h
      rw [hqk]
      simp only [Bool.false_eq_true, if_false]
      rw [destLocMapFrom, destLocMapFrom]
      by_cases hkm : k ∈ mis
      · rw [if_pos (⟨hiff.mpr hkm, hm⟩ : k ∈ mis' ∧
            localityMatch e.locality pattern = true), if_pos ⟨hkm, hm⟩,
          ih (k + 1) hcond']
      · rw [if_neg (fun hx : k ∈ mis' ∧ localityMatch e.locality pattern = true =>
            hkm (hiff.mp hx.1)),
          if_neg (fun hx : k ∈ mis ∧ localityMatch e.locality pattern = true =>
            hkm hx.1),
          ih (k + 1) hcond']
    · have hloc : (if q k = true then g e else e).locality = e.locality := by
        by_cases hqk : q k = true <;> simp [hqk, hg e]
      rw [destLocMapFrom, destLocMapFrom]
      rw [if_neg (fun hx : k ∈ mis' ∧
            localityMatch (if q k = true then g e else e).locality pattern = true =>
          hm (by rw [← hloc]; exact hx.2)),
        if_neg (fun hx : k ∈ mis ∧ localityMatch e.locality pattern = true =>
          hm hx.2),
        ih (k + 1) hcond']

theorem updateWhere_comm (q1 q2 : Nat → Bool)
    (g1 g2 : LocalityLbEndpoints → LocalityLbEndpoints)
    (hq : ∀ i, q1 i = true → q2 i = false) :
    ∀ (l : List LocalityLbEndpoints) (k : Nat),
      updateWhere q2 g2 k (updateWhere q1 g1 k l)
        = updateWhere q1 g1 k (updateWhere q2 g2 k l) := by
  intro l
  induction l with
  | nil => intro k; rfl
  | cons e rest ih =>
    intro k
    by_cases hq1 : q1 k = true
    · have hq2 : q2 k = false := hq k hq1
      simp [updateWhere, hq1, hq2, ih (k + 1)]
    · by_cases hq2 : q2 k = true <;> simp [updateWhere, hq1, hq2, ih (k + 1)]

theorem applyToEntry_congr_dlm (st : List LocalityLbEndpoints × Finset Nat)
    (pw : Locality × Nat) (D : List (Nat × Nat))
    (hD : destLocMapFrom st.2 pw.1 0 st.1 = D) :
    applyToEntry st pw
      = (updateWhere (fun i => decide (i ∈ D.map Prod.fst))
          (assignWeight pw.2 ((D.map Prod.snd).sum % U32)) 0 st.1,
        st.2 \ (D.map Prod.fst).toFinset) := by
  simp only [applyToEntry]
  rw [hD]

theorem applyToEntry_comm (eps : List LocalityLbEndpoints) (mis : Finset Nat)
    (x y : Locality × Nat)
    (hd : ∀ ol : Option Locality,
      localityMatch ol x.1 = false ∨ localityMatch ol y.1 = false) :
    applyToEntry (applyToEntry (eps, mis) x) y
      = applyToEntry (applyToEntry (eps, mis) y) x := by
  have hnot : ∀ i e, eps[i]? = some e →
      localityMatch e.locality y.1 = true →
      i ∉ (destLocMapFrom mis x.1 0 eps).map Prod.fst := by
    intro i e he hmy hc
    have hmx := claimed_match mis x.1 eps i e hc he
    rcases hd e.locality with h | h
    · rw [hmx] at h; cases h
    · rw [hmy] at h; cases h
  have hnot' : ∀ i e, eps[i]? = some e →
      localityMatch e.locality x.1 = true →
      i ∉ (destLocMapFrom mis y.1 0 eps).map Prod.fst := by
    intro i e he hmx hc
    have hmy := claimed_match mis y.1 eps i e hc he
    rcases hd e.locality with h | h
    · rw [hmx] at h; cases h
    · rw [hmy] at h; cases h
  have hD2 : destLocMapFrom
        (mis \ ((destLocMapFrom mis x.1 0 eps).map Prod.fst).toFinset) y.1 0
        (updateWhere (fun i => decide (i ∈ (destLocMapFrom mis x.1 0 eps).map Prod.fst))
          (assignWeight x.2 (((destLocMapFrom mis x.1 0 eps).map Prod.snd).sum % U32)) 0 eps)
      = destLocMapFrom mis y.1 0 eps := by
    apply destLocMapFrom_updateWhere _ _ (fun e => assignWeight_locality _ _ e)
    intro j e hje hm
    rw [Nat.zero_add]
    refine ⟨by simpa using hnot j e hje hm, ?_⟩
    simp [Finset.mem_sdiff, List.mem_toFinset, hnot j e hje hm]
  have hD1 : destLocMapFrom
        (mis \ ((destLocMapFrom mis y.1 0 eps).map Prod.fst).toFinset) x.1 0
        (updateWhere (fun i => decide (i ∈ (destLocMapFrom mis y.1 0 eps).map Prod.fst))
          (assignWeight y.2 (((destLocMapFrom mis y.1 0 eps).map Prod.snd).sum % U32)) 0 eps)
      = destLocMapFrom mis x.1 0 eps := by
    apply destLocMapFrom_updateWhere _ _ (fun e => assignWeight_locality _ _ e)
    intro j e hje hm
    rw [Nat.zero_add]
    refine ⟨by simpa using hnot' j e hje hm, ?_⟩
    simp [Finset.mem_sdiff, List.mem_toFinset, hnot' j e hje hm]
  have hq : ∀ i, decide (i ∈ (destLocMapFrom mis x.1 0 eps).map Prod.fst) = true →
      decide (i ∈ (destLocMapFrom mis y.1 0 eps).map Prod.fst) = false := by
    intro i h
    rw [decide_eq_true_eq] at h
    obtain ⟨j, e, hj, hget, _, hm, _⟩ := destLocMapFrom_spec mis x.1 eps 0 i h
    have hji : j = i := by omega
    rw [hji] at hget
    simpa using hnot' i e hget hm
  rw [applyToEntry_congr_dlm (eps, mis) x (destLocMapFrom mis x.1 0 eps) rfl,
    applyToEntry_congr_dlm (eps, mis) y (destLocMapFrom mis y.1 0 eps) rfl,
    applyToEntry_congr_dlm _ y (destLocMapFrom mis y.1 0 eps) hD2,
    applyToEntry_congr_dlm _ x (destLocMapFrom mis x.1 0 eps) hD1]
  simp only [Prod.mk.injEq]
  exact ⟨updateWhere_comm _ _ _ _ hq eps 0, sdiff_right_comm _ _ _⟩

/-- C5 (amended): the outcome of applying the matched rule is independent of
the enumeration order of its `to` entries provided no endpoint-group locality
is matched by two distinct `to` patterns of the rule; with overlapping
patterns the outcome does depend on the order (see the counterexample). -/
theorem C5_to_order_independence (d1 d2 : Distribute) (eps : List LocalityLbEndpoints)
    (hperm : d1.To.Perm d2.To)
    (hdisj : ∀ xx ∈ d1.To, ∀ yy ∈ d1.To, xx = yy ∨
      ∀ ol : Option Locality,
        localityMatch ol xx.1 = false ∨ localityMatch ol yy.1 = false) :
    applyDistributeRule d1 eps = applyDistributeRule d2 eps := by
  have hfold : d1.To.foldl applyToEntry (eps, (List.range eps.length).toFinset)
      = d2.To.foldl applyToEntry (eps, (List.range eps.length).toFinset) := by
    apply hperm.foldl_eq'
    intro xx hxx yy hyy st
    rcases hdisj xx hxx yy hyy with h | h
    · rw [h]
    · cases st with
      | mk seps smis => exact applyToEntry_comm seps smis xx yy h
  simp only [applyDistributeRule]
  rw [hfold]

/-- Witness for the amended C5 at a rule with a single `to` entry (the
disjointness hypothesis holds because any two entries of a singleton list are
equal). -/
theorem C5_to_order_independence_witness :
    ruleZ1.To.Perm ruleZ1.To
  ∧ (∀ xx ∈ ruleZ1.To, ∀ yy ∈ ruleZ1.To, xx = yy ∨
      ∀ ol : Option Locality,
        localityMatch ol xx.1 = false ∨ localityMatch ol yy.1 = false)
  ∧ applyDistributeRule ruleZ1 [epR1Z1, epR1Z2]
      = applyDistributeRule ruleZ1 [epR1Z1, epR1Z2] := by
  have hdisj : ∀ xx ∈ ruleZ1.To, ∀ yy ∈ ruleZ1.To, xx = yy ∨
      ∀ ol : Option Locality,
        localityMatch ol xx.1 = false ∨ localityMatch ol yy.1 = false := by
    intro xx hxx yy hyy
    simp only [ruleZ1, List.mem_singleton] at hxx hyy
    exact Or.inl (hxx.trans hyy.symm)
  exact ⟨List.Perm.refl _, hdisj,
    C5_to_order_independence ruleZ1 ruleZ1 [epR1Z1, epR1Z2] (List.Perm.refl _) hdisj⟩

/-- Counterexample to C5 as stated: the two `to` patterns r1 (wildcard) and
r1/z1 overlap on the group in r1/z1.  Enumerated as [r1, r1/z1], the wildcard
claims both groups (weights 50, 50); enumerated as [r1/z1, r1], the z1 group
is claimed alone by r1/z1 (weight 50) and the z2 group alone by the wildcard
(weight 100).  The two enumeration orders of the same `to` mapping give
different load assignments. -/
theorem C5_order_dependence_counterexample :
    (([(patR1, 100), (patR1Z1, 50)] : List (Locality × Nat)).Perm
        [(patR1Z1, 50), (patR1, 100)])
  ∧ applyDistributeRule ⟨patR1, [(patR1, 100), (patR1Z1, 50)]⟩ [epR1Z1, epR1Z2]
      ≠ applyDistributeRule ⟨patR1, [(patR1Z1, 50), (patR1, 100)]⟩ [epR1Z1, epR1Z2] :=
  ⟨List.Perm.swap (patR1Z1, 50) (patR1, 100) [], by decide⟩
